import Mathlib

/-!
Shallow embedding of the to-do application's core
(`src/todo_flask_app/src/todo_app/models.py` and the route-level logic in
`src/raiz_proyecto/src/pagina_app/run.py`).

Modelling conventions:
* The relational store is a `DB` record holding the `users` and `tasks`
  relations as lists in insertion order.
* A commit of a pending row is a function that either inserts the row
  (running the `before_insert` event hook and assigning the autoincrement
  primary key) or fails with `IntegrityError` when the store's
  uniqueness / foreign-key constraints reject it.
* Python's falsy test `if not self.slug` is modelled by comparison with
  the empty string (an unset slug is `""`).
* The external `slugify` library function is kept as an explicit function
  parameter: the repository code treats it as an opaque collaborator.
* `str(n)` inside the f-string `f"{base}-{counter}"` is modelled by
  `natDecimal`, a decimal printer written with elementary recursion.
* Concurrent interleaving: `Task.save` performs two store reads
  (slug generation) and up to two commits; each observation point gets its
  own `DB` snapshot (`s1`–`s4`), so a lost race is the special case where
  the snapshots differ.  The purely sequential run is `s1 = s2 = s3 = s4`.
-/

namespace TodoApp

/-- Decimal digit characters of a natural number, most significant first.
The first argument is structural fuel; `natDecimalAux n n` is exact. -/
def natDecimalAux : Nat → Nat → List Char
  | 0, _ => []
  | fuel + 1, n => if n = 0 then [] else natDecimalAux fuel (n / 10) ++ [Nat.digitChar (n % 10)]

/-- Decimal representation of a natural number, as produced by Python's `str`. -/
def natDecimal (n : Nat) : String :=
  if n = 0 then "0" else ⟨natDecimalAux n n⟩

/-- Python's `str.lower()` applied characterwise. -/
def pyLower (s : String) : String := ⟨s.data.map Char.toLower⟩

/-- Python's `str.strip()`: drop leading and trailing whitespace. -/
def pyStrip (s : String) : String :=
  ⟨((s.data.dropWhile Char.isWhitespace).reverse.dropWhile Char.isWhitespace).reverse⟩

/-- Modelled from the spec: werkzeug's `generate_password_hash` is not part of
this repository; section 4.1 specifies an opaque salted one-way hash.  The
model is deterministic and injective on plaintexts, with a recognisable
`method$salt$digest` shape. -/
def generate_password_hash (password : String) : String :=
  "scrypt$modelsalt$" ++ password

/-- Modelled from the spec: werkzeug's `check_password_hash` is not part of
this repository; section 4.1 specifies that verification is total, returning
`false` (never throwing) on any mismatching, malformed or foreign hash.  The
model verifies by recomputing the deterministic hash. -/
def check_password_hash (pwhash password : String) : Bool :=
  pwhash == generate_password_hash password

/-- The single error class surfaced by the store: SQLAlchemy's
`IntegrityError`, raised for uniqueness-constraint and foreign-key failures
alike. -/
inductive PersistError where
  | integrityError
deriving DecidableEq

/-- Row of the `users` relation (`class User` in `models.py`).
`id` is `none` until the store assigns the primary key at insert. -/
structure User where
  id : Option Nat
  name : String
  email : String
  password_hash : String
  created_at : Nat
deriving DecidableEq

/-- Row of the `tasks` relation (`class Task` in `models.py`).
An unset slug is the empty string (Python falsy `None`/`""`). -/
structure Task where
  id : Option Nat
  user_id : Nat
  title : String
  description : Option String
  due_date : Option Nat
  priority : Nat
  completed : Bool
  slug : String
  created_at : Nat
deriving DecidableEq

/-- The relational store: both relations in insertion order. -/
structure DB where
  users : List User
  tasks : List Task
deriving DecidableEq

/-- `User.set_password`: hash and store the password. -/
def User.set_password (u : User) (password : String) : User :=
  { u with password_hash := generate_password_hash password }

/-- `User.check_password`: verify a password against the stored hash. -/
def User.check_password (u : User) (password : String) : Bool :=
  check_password_hash u.password_hash password

/-- `User.save`: `db.session.add(self); db.session.commit()` with no retry.
The commit enforces the `email UNIQUE` constraint and assigns the
autoincrement primary key. -/
def User.save (db : DB) (u : User) : Except PersistError (User × DB) :=
  if db.users.any (fun v => v.email == u.email) then
    .error .integrityError
  else
    let u' := if u.id = none then { u with id := some (db.users.length + 1) } else u
    .ok (u', { db with users := db.users ++ [u'] })

/-- `User.get_by_id`: fetch a user by primary key. -/
def User.get_by_id (db : DB) (user_id : Nat) : Option User :=
  db.users.find? (fun u => u.id == some user_id)

/-- `User.get_by_email`: `User.query.filter_by(email=email).first()`. -/
def User.get_by_email (db : DB) (email : String) : Option User :=
  db.users.find? (fun u => u.email == email)

/-- `Task.query.filter_by(slug=s).first() is not None`: does any stored task
carry slug `s`? -/
def slugTaken (db : DB) (s : String) : Bool :=
  db.tasks.any (fun t => t.slug == s)

/-- The candidate sequence tried by `_generate_unique_slug`'s while loop:
the base slug first, then `base-1`, `base-2`, ... -/
def slugCand (base : String) (k : Nat) : String :=
  if k = 0 then base else base ++ "-" ++ natDecimal k

/-- The while loop of `_generate_unique_slug`: starting at candidate index
`k`, return the first candidate not present in the store.  `fuel` bounds the
iteration; `Task.generate_unique_slug` supplies one more unit of fuel than
there are stored tasks, which is always enough (the candidates are pairwise
distinct). -/
def findFreeSlug (db : DB) (base : String) : Nat → Nat → Option String
  | 0, _ => none
  | fuel + 1, k =>
    if slugTaken db (slugCand base k) then findFreeSlug db base fuel (k + 1)
    else some (slugCand base k)

/-- `Task._generate_unique_slug`: slugify the title, fall back to
`slugify(f"task-{self.id or ''}")` when that is empty, then walk the
candidate sequence until a free slug is found. -/
def Task.generate_unique_slug (slugify : String → String) (db : DB) (t : Task) : String :=
  let base0 := slugify t.title
  let base :=
    if base0 = "" then
      slugify ("task-" ++ (match t.id with
        | none => ""
        | some i => if i = 0 then "" else natDecimal i))
    else base0
  (findFreeSlug db base (db.tasks.length + 1) 0).getD base

/-- The `before_insert` event hook `task_before_insert`: if the pending row
has no slug, assign `slugify(target.title) or 'task'` verbatim, with no
uniqueness check and no numeric suffix. -/
def task_before_insert (slugify : String → String) (t : Task) : Task :=
  if t.slug = "" then
    { t with slug := if slugify t.title = "" then "task" else slugify t.title }
  else t

/-- One `db.session.commit()` of a pending task against snapshot `db`:
run the `before_insert` hook, then enforce the `slug UNIQUE` and
`user_id REFERENCES users(id)` constraints; on success assign the
autoincrement primary key and append the row. -/
def Task.commit (slugify : String → String) (db : DB) (t : Task) :
    Except PersistError (Task × DB) :=
  let t1 := task_before_insert slugify t
  if slugTaken db t1.slug || !(db.users.any (fun u => u.id == some t1.user_id)) then
    .error .integrityError
  else
    let t2 := if t1.id = none then { t1 with id := some (db.tasks.length + 1) } else t1
    .ok (t2, { db with tasks := db.tasks ++ [t2] })

/-- The slug-assignment prefix of `Task.save`: `if not self.slug:
self.slug = self._generate_unique_slug()`, reading snapshot `db`. -/
def Task.withGeneratedSlug (slugify : String → String) (db : DB) (t : Task) : Task :=
  if t.slug = "" then { t with slug := Task.generate_unique_slug slugify db t } else t

/-- `Task.save`: assign a slug if unset (reading `s1`), commit against `s2`;
on `IntegrityError` roll back, regenerate the slug (reading `s3`) and commit
exactly once more against `s4`, letting a second failure escape. -/
def Task.save (slugify : String → String) (s1 s2 s3 s4 : DB) (t : Task) :
    Except PersistError (Task × DB) :=
  let t1 := Task.withGeneratedSlug slugify s1 t
  match Task.commit slugify s2 t1 with
  | .ok r => .ok r
  | .error _ =>
    let t2 := { t1 with slug := Task.generate_unique_slug slugify s3 t1 }
    Task.commit slugify s4 t2

/-- `Task.get_by_slug`: `Task.query.filter_by(slug=slug).first()`. -/
def Task.get_by_slug (db : DB) (slug : String) : Option Task :=
  db.tasks.find? (fun t => t.slug == slug)

/-- Stable descending insertion used to model
`ORDER BY created_at DESC` over the insertion-ordered store: a task is
placed before the first stored task whose timestamp is not larger, so equal
timestamps keep insertion order (the spec's store-stable tie-break). -/
def insertByCreatedDesc (t : Task) : List Task → List Task
  | [] => [t]
  | h :: rest =>
    if h.created_at ≤ t.created_at then t :: h :: rest
    else h :: insertByCreatedDesc t rest

/-- `Task.get_all`: all tasks ordered by creation date descending. -/
def Task.get_all (db : DB) : List Task :=
  db.tasks.foldr insertByCreatedDesc []

/-- Email normalisation applied by the routes: `.strip().lower()`. -/
def normalizeEmail (email : String) : String := pyLower (pyStrip email)

/-- The credential check of the `login` route (`run.py` lines 70-76):
look the user up by normalised email and accept only on a password match. -/
def verify_credentials (db : DB) (email password : String) : Option User :=
  match User.get_by_email db (normalizeEmail email) with
  | none => none
  | some u => if User.check_password u password then some u else none

/-- The `signup` route (`run.py` lines 93-104): reject when the normalised
email is already registered (`.ok none`), otherwise construct the user with
stripped name and normalised email, hash the password and persist. -/
def signup (db : DB) (name email password : String) :
    Except PersistError (Option (User × DB)) :=
  match User.get_by_email db (normalizeEmail email) with
  | some _ => .ok none
  | none =>
    let u := User.set_password
      { id := none, name := pyStrip name, email := normalizeEmail email
        password_hash := "", created_at := 0 } password
    match User.save db u with
    | .ok (u', db') => .ok (some (u', db'))
    | .error e => .error e

/-! Helper lemmas about the decimal printer and the slug candidate sequence. -/

theorem natDecimalAux_eq_digits : ∀ (fuel n : Nat), n ≤ fuel →
    natDecimalAux fuel n = ((Nat.digits 10 n).map Nat.digitChar).reverse := by
  intro fuel
  induction fuel with
  | zero =>
    intro n hn
    interval_cases n
    simp [natDecimalAux]
  | succ f ih =>
    intro n hn
    by_cases h0 : n = 0
    · simp [natDecimalAux, h0]
    · have hpos : 0 < n := Nat.pos_of_ne_zero h0
      rw [natDecimalAux, if_neg h0]
      rw [Nat.digits_def' (by norm_num : (1:ℕ) < 10) hpos]
      have hdiv : n / 10 ≤ f := by
        have h1 : n / 10 < n := Nat.div_lt_self hpos (by norm_num)
        omega
      rw [ih (n / 10) hdiv]
      simp

theorem natDecimal_inj : Function.Injective natDecimal := by
  intro m n h
  have hd : ∀ k, k ≠ 0 → natDecimal k = ⟨((Nat.digits 10 k).map Nat.digitChar).reverse⟩ := by
    intro k hk
    rw [natDecimal, if_neg hk, natDecimalAux_eq_digits k k le_rfl]
  have hcharinj : ∀ a < 10, ∀ b < 10, Nat.digitChar a = Nat.digitChar b → a = b := by decide
  have hmapinj : ∀ (l₁ l₂ : List Nat), (∀ x ∈ l₁, x < 10) → (∀ x ∈ l₂, x < 10) →
      l₁.map Nat.digitChar = l₂.map Nat.digitChar → l₁ = l₂ := by
    intro l₁
    induction l₁ with
    | nil => intro l₂ _ _ he; cases l₂ <;> simp_all
    | cons a t iht =>
      intro l₂ h1 h2 he
      cases l₂ with
      | nil => simp_all
      | cons b t₂ =>
        simp only [List.map_cons, List.cons.injEq] at he
        have ha : a = b := hcharinj a (h1 a (by simp)) b (h2 b (by simp)) he.1
        have ht : t = t₂ :=
          iht t₂ (fun x hx => h1 x (by simp [hx])) (fun x hx => h2 x (by simp [hx])) he.2
        simp [ha, ht]
  have hdigits : ∀ {a b : Nat}, Nat.digits 10 a = Nat.digits 10 b → a = b := by
    intro a b hab
    rw [← Nat.ofDigits_digits 10 a, ← Nat.ofDigits_digits 10 b, hab]
  by_cases hm : m = 0 <;> by_cases hn : n = 0
  · omega
  · exfalso
    rw [natDecimal, if_pos hm, hd n hn] at h
    have h1 : (['0'] : List Char) = ((Nat.digits 10 n).map Nat.digitChar).reverse := by
      have := congrArg String.data h
      simpa using this
    have h2 : (Nat.digits 10 n).map Nat.digitChar = ['0'] := by
      have := congrArg List.reverse h1
      simpa using this.symm
    have h3 : Nat.digits 10 n = [0] := by
      apply hmapinj
      · intro x hx; exact Nat.digits_lt_base (by norm_num) hx
      · intro x hx; simp at hx; omega
      · simpa using h2
    have h4 : n = 0 := by rw [← Nat.ofDigits_digits 10 n, h3]; simp [Nat.ofDigits]
    exact hn h4
  · exfalso
    rw [hd m hm] at h
    rw [natDecimal, if_pos hn] at h
    have h1 : (['0'] : List Char) = ((Nat.digits 10 m).map Nat.digitChar).reverse := by
      have := congrArg String.data h
      simpa using this.symm
    have h2 : (Nat.digits 10 m).map Nat.digitChar = ['0'] := by
      have := congrArg List.reverse h1
      simpa using this.symm
    have h3 : Nat.digits 10 m = [0] := by
      apply hmapinj
      · intro x hx; exact Nat.digits_lt_base (by norm_num) hx
      · intro x hx; simp at hx; omega
      · simpa using h2
    have h4 : m = 0 := by rw [← Nat.ofDigits_digits 10 m, h3]; simp [Nat.ofDigits]
    exact hm h4
  · rw [hd m hm, hd n hn] at h
    have hdata := congrArg String.data h
    simp only at hdata
    have hmap : (Nat.digits 10 m).map Nat.digitChar = (Nat.digits 10 n).map Nat.digitChar := by
      have := congrArg List.reverse hdata
      simpa using this
    exact hdigits (hmapinj _ _ (fun x hx => Nat.digits_lt_base (by norm_num) hx)
      (fun x hx => Nat.digits_lt_base (by norm_num) hx) hmap)

theorem slugCand_inj (base : String) : Function.Injective (slugCand base) := by
  intro j k h
  by_cases hj : j = 0 <;> by_cases hk : k = 0
  · omega
  · exfalso
    rw [slugCand, if_pos hj, slugCand, if_neg hk] at h
    have := congrArg (fun s => s.data.length) h
    simp [String.data_append] at this
  · exfalso
    rw [slugCand, if_neg hj, slugCand, if_pos hk] at h
    have := congrArg (fun s => s.data.length) h
    simp [String.data_append] at this
  · rw [slugCand, if_neg hj, slugCand, if_neg hk] at h
    have hdata := congrArg String.data h
    simp only [String.data_append] at hdata
    have := List.append_cancel_left hdata
    exact natDecimal_inj (String.ext this)

theorem slugTaken_iff (db : DB) (s : String) :
    slugTaken db s = true ↔ ∃ t ∈ db.tasks, t.slug = s := by
  simp [slugTaken, List.any_eq_true]

theorem slugTaken_eq_false_iff (db : DB) (s : String) :
    slugTaken db s = false ↔ ∀ t ∈ db.tasks, t.slug ≠ s := by
  simp [slugTaken, List.any_eq_false]

/-- Pigeonhole bound for the while loop: when the first `N` candidates are
all present in the store, the store holds at least `N` tasks. -/
theorem taken_candidates_le_tasks (db : DB) (base : String) (N : Nat)
    (h : ∀ k, k < N → slugTaken db (slugCand base k) = true) :
    N ≤ db.tasks.length := by
  have hsub : (List.range N).map (slugCand base) ⊆ db.tasks.map Task.slug := by
    intro s hs
    rcases List.mem_map.mp hs with ⟨k, hk, rfl⟩
    rcases (slugTaken_iff db _).mp (h k (List.mem_range.mp hk)) with ⟨t, ht, hts⟩
    exact List.mem_map.mpr ⟨t, ht, hts⟩
  have hnd : ((List.range N).map (slugCand base)).Nodup :=
    (List.nodup_range N).map (slugCand_inj base)
  have := (hnd.subperm hsub).length_le
  simpa using this

/-- Exact behaviour of the while loop: if, among the candidates the loop can
reach, exactly those of index below `N` are taken, the loop stops at
candidate `N` whenever it has fuel to get there. -/
theorem findFreeSlug_reaches (db : DB) (base : String) (N : Nat)
    (htaken : ∀ k, k ≤ N → (slugTaken db (slugCand base k) = true ↔ k < N)) :
    ∀ (fuel k : Nat), k ≤ N → N - k < fuel →
      findFreeSlug db base fuel k = some (slugCand base N) := by
  intro fuel
  induction fuel with
  | zero => intro k _ hf; omega
  | succ f ih =>
    intro k hk hf
    by_cases hlt : k < N
    · have htk : slugTaken db (slugCand base k) = true := (htaken k hk).mpr hlt
      rw [findFreeSlug, if_pos htk]
      exact ih (k + 1) (by omega) (by omega)
    · have hkN : k = N := by omega
      subst hkN
      have htk : slugTaken db (slugCand base k) = false := by
        have := htaken k le_rfl
        simp [Nat.lt_irrefl] at this
        exact this
      rw [findFreeSlug, if_neg (by simp [htk])]

theorem find?_append_of_none {α : Type} (p : α → Bool) {l₁ : List α} (l₂ : List α)
    (h : l₁.find? p = none) : (l₁ ++ l₂).find? p = l₂.find? p := by
  rw [List.find?_append, h, Option.none_or]

/-! Concrete fixtures used by the witness theorems. -/

/-- Identity slugifier used to instantiate the external `slugify` parameter
in witnesses. -/
def slugifyId : String → String := fun s => s

def userFixture : User :=
  { id := some 1, name := "u", email := "u@example.com", password_hash := "", created_at := 0 }

def taskTitleA : Task :=
  { id := none, user_id := 1, title := "a", description := none, due_date := none,
    priority := 3, completed := false, slug := "", created_at := 0 }

def dbEmpty : DB := { users := [], tasks := [] }

/-- Store holding the slugs `a` and `a-1` (and the owning user). -/
def dbSlugsA : DB :=
  { users := [userFixture],
    tasks := [{ taskTitleA with id := some 1, slug := "a" },
              { taskTitleA with id := some 2, slug := "a-1" }] }

/-! Claim theorems. -/

/-- C3: for every title whose slugified token is non-empty, if no existing
task has that token as its slug, `_generate_unique_slug` returns the token
itself, with no numeric suffix. -/
theorem generate_unique_slug_fresh (slugify : String → String) (db : DB) (t : Task)
    (base : String) (hbase : slugify t.title = base) (hne : base ≠ "")
    (hfree : slugTaken db base = false) :
    Task.generate_unique_slug slugify db t = base := by
  simp only [Task.generate_unique_slug]
  rw [hbase, if_neg hne]
  have h0 : slugCand base 0 = base := by simp [slugCand]
  rw [findFreeSlug, h0, if_neg (by simp [hfree])]
  simp

theorem generate_unique_slug_fresh_witness :
    Task.generate_unique_slug slugifyId dbEmpty taskTitleA = "a" :=
  generate_unique_slug_fresh slugifyId dbEmpty taskTitleA "a" rfl (by decide) (by decide)

/-- C2: for every title whose slugified token is `base`, if exactly the `N`
slugs `base`, `base-1`, ..., `base-(N-1)` already exist in the task store
and no other candidate tried by the loop exists, `_generate_unique_slug`
returns `base-N`. -/
theorem generate_unique_slug_collision_suffix (slugify : String → String) (db : DB)
    (t : Task) (base : String) (N : Nat)
    (hbase : slugify t.title = base) (hne : base ≠ "") (hNpos : 0 < N)
    (hexact : ∀ k, k ≤ N → (slugTaken db (slugCand base k) = true ↔ k < N)) :
    Task.generate_unique_slug slugify db t = base ++ "-" ++ natDecimal N := by
  have hbound : N ≤ db.tasks.length :=
    taken_candidates_le_tasks db base N (fun k hk => (hexact k (le_of_lt hk)).mpr hk)
  have hrun := findFreeSlug_reaches db base N hexact (db.tasks.length + 1) 0
    (Nat.zero_le N) (by omega)
  simp only [Task.generate_unique_slug]
  rw [hbase, if_neg hne, hrun]
  have hN0 : N ≠ 0 := by omega
  simp [slugCand, hN0]

theorem generate_unique_slug_collision_suffix_witness :
    Task.generate_unique_slug slugifyId dbSlugsA taskTitleA = "a" ++ "-" ++ natDecimal 2 :=
  generate_unique_slug_collision_suffix slugifyId dbSlugsA taskTitleA "a" 2 rfl
    (by decide) (by decide) (by decide)

/-- C1: if `Task.save` hits a uniqueness-constraint failure when persisting a
task, it rolls back, regenerates the slug, and retries the persist exactly
once: the whole run is equal to that single retried commit, so a failure of
the retried persist propagates to the caller with no second retry. -/
theorem save_retries_once_on_slug_collision (slugify : String → String)
    (s1 s2 s3 s4 : DB) (t : Task)
    (hfail : slugTaken s2
      (task_before_insert slugify (Task.withGeneratedSlug slugify s1 t)).slug = true) :
    Task.save slugify s1 s2 s3 s4 t =
      Task.commit slugify s4
        { Task.withGeneratedSlug slugify s1 t with
          slug := Task.generate_unique_slug slugify s3 (Task.withGeneratedSlug slugify s1 t) } := by
  have hcommit : Task.commit slugify s2 (Task.withGeneratedSlug slugify s1 t) =
      .error .integrityError := by
    simp only [Task.commit]
    rw [hfail]
    simp
  simp only [Task.save]
  rw [hcommit]

theorem save_retries_once_on_slug_collision_witness :
    Task.save slugifyId dbEmpty dbSlugsA dbSlugsA dbSlugsA taskTitleA =
      Task.commit slugifyId dbSlugsA
        { Task.withGeneratedSlug slugifyId dbEmpty taskTitleA with
          slug := Task.generate_unique_slug slugifyId dbSlugsA
            (Task.withGeneratedSlug slugifyId dbEmpty taskTitleA) } :=
  save_retries_once_on_slug_collision slugifyId dbEmpty dbSlugsA dbSlugsA dbSlugsA
    taskTitleA (by decide)

/-- Pending task whose slug is already set and whose owner is missing from
the store, so its first commit fails on the foreign-key constraint. -/
def taskFK : Task :=
  { id := none, user_id := 1, title := "a", description := none, due_date := none,
    priority := 3, completed := false, slug := "a", created_at := 0 }

def dbUserOnly : DB := { users := [userFixture], tasks := [] }

/-- C4 counterexample: a foreign-key `IntegrityError` on the first commit of
`Task.save` (here: owner absent, slug demonstrably free) does not propagate
as a terminal error: the save is retried and, the owner having appeared by
the second commit, succeeds. -/
theorem save_retries_fk_violation_too :
    Task.commit slugifyId dbEmpty taskFK = .error .integrityError ∧
    slugTaken dbEmpty (task_before_insert slugifyId taskFK).slug = false ∧
    Task.save slugifyId dbEmpty dbEmpty dbEmpty dbUserOnly taskFK =
      .ok ({ taskFK with id := some 1 },
           { dbUserOnly with tasks := [{ taskFK with id := some 1 }] }) :=
  ⟨rfl, rfl, rfl⟩

/-- C4 amended: `Task.save`'s single retry is triggered by any
`IntegrityError` raised by the first commit — including foreign-key
violations — not only slug-uniqueness failures; the retried persist is the
final attempt, and `User.save` performs no retry at all: it fails exactly
when the email uniqueness constraint rejects the row, propagating the error
to the caller. -/
theorem persistence_error_policy (slugify : String → String) (s1 s2 s3 s4 : DB) (t : Task)
    (hfail : Task.commit slugify s2 (Task.withGeneratedSlug slugify s1 t) =
      .error .integrityError) :
    (Task.save slugify s1 s2 s3 s4 t =
      Task.commit slugify s4
        { Task.withGeneratedSlug slugify s1 t with
          slug := Task.generate_unique_slug slugify s3 (Task.withGeneratedSlug slugify s1 t) }) ∧
    (∀ (db : DB) (u : User),
      User.save db u = .error .integrityError ↔
        db.users.any (fun v => v.email == u.email) = true) := by
  constructor
  · simp only [Task.save]
    rw [hfail]
  · intro db u
    by_cases hany : db.users.any (fun v => v.email == u.email) = true
    · simp [User.save, hany]
    · simp [User.save, hany]

theorem persistence_error_policy_witness :
    (Task.save slugifyId dbEmpty dbEmpty dbEmpty dbUserOnly taskFK =
      Task.commit slugifyId dbUserOnly
        { Task.withGeneratedSlug slugifyId dbEmpty taskFK with
          slug := Task.generate_unique_slug slugifyId dbEmpty
            (Task.withGeneratedSlug slugifyId dbEmpty taskFK) }) ∧
    (∀ (db : DB) (u : User),
      User.save db u = .error .integrityError ↔
        db.users.any (fun v => v.email == u.email) = true) :=
  persistence_error_policy slugifyId dbEmpty dbEmpty dbEmpty dbUserOnly taskFK rfl

/-- Successful commits append exactly the returned row, whose slug was free
in the snapshot the commit ran against. -/
theorem commit_ok_spec {slugify : String → String} {db : DB} {t t' : Task} {db' : DB}
    (h : Task.commit slugify db t = .ok (t', db')) :
    db'.tasks = db.tasks ++ [t'] ∧ slugTaken db t'.slug = false := by
  simp only [Task.commit] at h
  split at h
  · exact absurd h (by simp)
  · rename_i hc
    simp only [Except.ok.injEq, Prod.mk.injEq] at h
    obtain ⟨ht2, hdb2⟩ := h
    have hslug : t'.slug = (task_before_insert slugify t).slug := by
      rw [← ht2]
      by_cases hid : (task_before_insert slugify t).id = none
      · simp [hid]
      · simp [hid]
    have hfree : slugTaken db (task_before_insert slugify t).slug = false := by
      simp only [Bool.or_eq_true, Bool.not_eq_true'] at hc
      push_neg at hc
      rcases Bool.eq_false_or_eq_true (slugTaken db (task_before_insert slugify t).slug) with htr | hf
      · exact absurd htr hc.1
      · exact hf
    constructor
    · rw [← hdb2, ← ht2]
    · rw [hslug]; exact hfree

/-- C6: for every task persisted via `Task.save`, fetching by the slug the
save assigned, against the store state the save produced, returns that same
task. -/
theorem get_by_slug_after_save (slugify : String → String) (s1 s2 s3 s4 : DB)
    (t t' : Task) (db' : DB)
    (h : Task.save slugify s1 s2 s3 s4 t = .ok (t', db')) :
    Task.get_by_slug db' t'.slug = some t' := by
  have key : ∀ (db0 : DB) (u : Task), Task.commit slugify db0 u = .ok (t', db') →
      Task.get_by_slug db' t'.slug = some t' := by
    intro db0 u hc
    obtain ⟨htasks, hfree⟩ := commit_ok_spec hc
    have hnone : db0.tasks.find? (fun x => x.slug == t'.slug) = none := by
      refine List.find?_eq_none.mpr (fun x hx => ?_)
      have := (slugTaken_eq_false_iff db0 t'.slug).mp hfree x hx
      simp [this]
    simp only [Task.get_by_slug, htasks]
    rw [find?_append_of_none _ _ hnone]
    simp [List.find?]
  simp only [Task.save] at h
  cases hc : Task.commit slugify s2 (Task.withGeneratedSlug slugify s1 t) with
  | ok r =>
    rw [hc] at h
    simp only at h
    exact key s2 _ (by rw [hc, h])
  | error e =>
    rw [hc] at h
    simp only at h
    exact key s4 _ h

theorem get_by_slug_after_save_witness :
    Task.get_by_slug
      { users := [userFixture], tasks := [{ taskTitleA with id := some 1, slug := "a" }] }
      ({ taskTitleA with id := some 1, slug := "a" } : Task).slug =
      some { taskTitleA with id := some 1, slug := "a" } :=
  get_by_slug_after_save slugifyId dbUserOnly dbUserOnly dbUserOnly dbUserOnly taskTitleA
    { taskTitleA with id := some 1, slug := "a" }
    { users := [userFixture], tasks := [{ taskTitleA with id := some 1, slug := "a" }] }
    rfl

/-- C9: for every stored hash string, including malformed or foreign-format
hashes, `User.check_password` evaluates to `false` (it is a total Boolean
function, raising nothing) whenever the password does not verify against the
stored hash. -/
theorem check_password_false_on_mismatch (u : User) (password : String)
    (h : u.password_hash ≠ generate_password_hash password) :
    User.check_password u password = false := by
  simp only [User.check_password, check_password_hash]
  exact beq_eq_false_iff_ne.mpr h

theorem check_password_false_on_mismatch_witness :
    User.check_password
      { userFixture with password_hash := "$2b$12$foreign.bcrypt.hash" } "secret" = false :=
  check_password_false_on_mismatch
    { userFixture with password_hash := "$2b$12$foreign.bcrypt.hash" } "secret" (by decide)

/-- C10: for a task inserted directly through the session, the
`before_insert` hook assigns `slugify(title)`, or the literal token `task`
when that is empty, with no numeric suffix; every inserted task therefore
has a non-empty slug, but the hook makes no store lookup and its output can
collide with an existing slug, leaving uniqueness to the store constraint. -/
theorem before_insert_hook_spec (slugify : String → String) (t : Task) (ht : t.slug = "") :
    (task_before_insert slugify t).slug =
      (if slugify t.title = "" then "task" else slugify t.title) ∧
    (∀ u : Task, (task_before_insert slugify u).slug ≠ "") ∧
    (∃ (db : DB) (u : Task), u.slug = "" ∧
      slugTaken db (task_before_insert slugify u).slug = true) := by
  refine ⟨by simp [task_before_insert, ht], ?_, ?_⟩
  · intro u
    by_cases hu : u.slug = ""
    · simp only [task_before_insert, if_pos hu]
      by_cases htitle : slugify u.title = ""
      · simp [htitle]
      · simp [htitle]
    · simp [task_before_insert, hu]
  · refine ⟨⟨[], [{ t with slug := (task_before_insert slugify t).slug }]⟩, t, ht, ?_⟩
    simp [slugTaken]

theorem before_insert_hook_spec_witness :
    (task_before_insert slugifyId taskTitleA).slug =
      (if slugifyId taskTitleA.title = "" then "task" else slugifyId taskTitleA.title) ∧
    (∀ u : Task, (task_before_insert slugifyId u).slug ≠ "") ∧
    (∃ (db : DB) (u : Task), u.slug = "" ∧
      slugTaken db (task_before_insert slugifyId u).slug = true) :=
  before_insert_hook_spec slugifyId taskTitleA (by decide)

theorem generate_password_hash_inj : Function.Injective generate_password_hash := by
  intro p q h
  have hdata := congrArg String.data h
  simp only [generate_password_hash, String.data_append] at hdata
  exact String.ext (List.append_cancel_left hdata)

/-- C5: after `set_password pw`, `check_password pw` is true and
`check_password q` is false for every `q ≠ pw` (empty string and one-char
variations included); the login path returns exactly the user found under
the normalised email whose password matches, and rejects otherwise (absent
email included). -/
theorem credentials_roundtrip (u : User) (pw : String)
    (hu : u.password_hash = generate_password_hash pw) :
    User.check_password u pw = true ∧
    (∀ q, q ≠ pw → User.check_password u q = false) ∧
    (∀ (db : DB) (email q : String) (r : User),
      verify_credentials db email q = some r ↔
        (User.get_by_email db (normalizeEmail email) = some r ∧
         User.check_password r q = true)) := by
  refine ⟨?_, ?_, ?_⟩
  · simp [User.check_password, check_password_hash, hu]
  · intro q hq
    simp only [User.check_password, check_password_hash, hu]
    exact beq_eq_false_iff_ne.mpr (fun hh => hq (generate_password_hash_inj hh.symm))
  · intro db email q r
    unfold verify_credentials
    cases hm : User.get_by_email db (normalizeEmail email) with
    | none => simp
    | some v =>
      by_cases hcp : User.check_password v q = true
      · simp only [if_pos hcp]
        constructor
        · intro hv
          refine ⟨hv, ?_⟩
          obtain rfl : v = r := Option.some.inj hv
          exact hcp
        · exact fun hh => hh.1
      · simp only [if_neg hcp]
        constructor
        · intro hv; cases hv
        · rintro ⟨hv, hc2⟩
          obtain rfl : v = r := Option.some.inj hv
          exact absurd hc2 hcp

def userPw : User := User.set_password userFixture "hunter2secret"

theorem credentials_roundtrip_witness :
    User.check_password userPw "hunter2secret" = true ∧
    (∀ q, q ≠ "hunter2secret" → User.check_password userPw q = false) ∧
    (∀ (db : DB) (email q : String) (r : User),
      verify_credentials db email q = some r ↔
        (User.get_by_email db (normalizeEmail email) = some r ∧
         User.check_password r q = true)) :=
  credentials_roundtrip userPw "hunter2secret" rfl

/-- Successful `User.save` appends exactly the returned row (same email),
and can only have succeeded because no stored user carried that email. -/
theorem user_save_ok_spec {db : DB} {u u' : User} {db' : DB}
    (h : User.save db u = .ok (u', db')) :
    db'.users = db.users ++ [u'] ∧ u'.email = u.email ∧
    db.users.any (fun v => v.email == u.email) = false := by
  simp only [User.save] at h
  split at h
  · exact absurd h (by simp)
  · rename_i hany
    simp only [Except.ok.injEq, Prod.mk.injEq] at h
    obtain ⟨hu', hdb'⟩ := h
    have hemail : u'.email = u.email := by
      rw [← hu']
      by_cases hid : u.id = none
      · simp [hid]
      · simp [hid]
    refine ⟨by rw [← hdb', ← hu'], hemail, ?_⟩
    rcases Bool.eq_false_or_eq_true (db.users.any (fun v => v.email == u.email)) with htr | hf
    · exact absurd htr hany
    · exact hf

/-- C7: after signing up a user with email `A@B.com`, `get_by_email` with
`a@b.com` returns that user, because the signup path stores the email
trimmed and lowercased. -/
theorem get_by_email_after_signup (db : DB) (nm pw : String) (u : User) (db' : DB)
    (h : signup db nm "A@B.com" pw = .ok (some (u, db'))) :
    User.get_by_email db' "a@b.com" = some u := by
  have hnorm : normalizeEmail "A@B.com" = "a@b.com" := by decide
  simp only [signup, hnorm] at h
  cases hm : User.get_by_email db "a@b.com" with
  | some v => rw [hm] at h; simp at h
  | none =>
    rw [hm] at h
    simp only at h
    cases hs : User.save db (User.set_password
        { id := none, name := pyStrip nm, email := "a@b.com",
          password_hash := "", created_at := 0 } pw) with
    | error e => rw [hs] at h; simp at h
    | ok p =>
      obtain ⟨u', db''⟩ := p
      rw [hs] at h
      simp only [Except.ok.injEq, Option.some.injEq, Prod.mk.injEq] at h
      obtain ⟨h1, h2⟩ := h
      subst h1
      subst h2
      obtain ⟨husers, hemail, _⟩ := user_save_ok_spec hs
      simp only [User.get_by_email, husers]
      rw [find?_append_of_none _ _ hm]
      simp [List.find?, hemail, User.set_password]

theorem get_by_email_after_signup_witness :
    User.get_by_email
      { users := [{ id := some 1, name := "n", email := "a@b.com",
                    password_hash := generate_password_hash "pw123456", created_at := 0 }],
        tasks := [] } "a@b.com" =
      some { id := some 1, name := "n", email := "a@b.com",
             password_hash := generate_password_hash "pw123456", created_at := 0 } :=
  get_by_email_after_signup dbEmpty "n" "pw123456"
    { id := some 1, name := "n", email := "a@b.com",
      password_hash := generate_password_hash "pw123456", created_at := 0 }
    { users := [{ id := some 1, name := "n", email := "a@b.com",
                  password_hash := generate_password_hash "pw123456", created_at := 0 }],
      tasks := [] } rfl

/-! Lemmas about the modelled `ORDER BY created_at DESC`. -/

theorem insertByCreatedDesc_perm (t : Task) (l : List Task) :
    (insertByCreatedDesc t l).Perm (t :: l) := by
  induction l with
  | nil => exact List.Perm.refl _
  | cons h rest ih =>
    by_cases hc : h.created_at ≤ t.created_at
    · simp [insertByCreatedDesc, hc]
    · simp only [insertByCreatedDesc, if_neg hc]
      exact (ih.cons h).trans (List.Perm.swap t h rest)

theorem insertByCreatedDesc_sorted {l : List Task}
    (hl : l.Pairwise (fun a b => b.created_at ≤ a.created_at)) (t : Task) :
    (insertByCreatedDesc t l).Pairwise (fun a b => b.created_at ≤ a.created_at) := by
  induction l with
  | nil => simp [insertByCreatedDesc]
  | cons h rest ih =>
    rcases List.pairwise_cons.mp hl with ⟨hh, hrest⟩
    by_cases hc : h.created_at ≤ t.created_at
    · simp only [insertByCreatedDesc, if_pos hc]
      refine List.pairwise_cons.mpr ⟨?_, hl⟩
      intro b hb
      rcases List.mem_cons.mp hb with rfl | hb2
      · exact hc
      · exact le_trans (hh b hb2) hc
    · simp only [insertByCreatedDesc, if_neg hc]
      refine List.pairwise_cons.mpr ⟨?_, ih hrest⟩
      intro b hb
      rcases List.mem_cons.mp ((insertByCreatedDesc_perm t rest).mem_iff.mp hb) with rfl | hb2
      · exact le_of_lt (Nat.lt_of_not_le hc)
      · exact hh b hb2

theorem insertByCreatedDesc_filter (c : Nat) (t : Task) (l : List Task) :
    (insertByCreatedDesc t l).filter (fun s => s.created_at == c) =
      if t.created_at = c then t :: l.filter (fun s => s.created_at == c)
      else l.filter (fun s => s.created_at == c) := by
  induction l with
  | nil =>
    by_cases htc : t.created_at = c <;>
      simp [insertByCreatedDesc, List.filter_cons, htc]
  | cons h rest ih =>
    by_cases hc : h.created_at ≤ t.created_at
    · simp only [insertByCreatedDesc, if_pos hc]
      by_cases htc : t.created_at = c
      · simp [List.filter_cons, htc]
      · simp [List.filter_cons, htc]
    · simp only [insertByCreatedDesc, if_neg hc]
      rw [List.filter_cons, List.filter_cons, ih]
      by_cases htc : t.created_at = c
      · have hhc : (h.created_at == c) = false := by
          have hlt : t.created_at < h.created_at := Nat.lt_of_not_le hc
          simp only [beq_eq_false_iff_ne]
          omega
        simp [htc, hhc]
      · simp [htc]

theorem get_all_sorted_desc (db : DB) :
    (Task.get_all db).Pairwise (fun a b => b.created_at ≤ a.created_at) := by
  simp only [Task.get_all]
  induction db.tasks with
  | nil => simp
  | cons x xs ih =>
    simp only [List.foldr_cons]
    exact insertByCreatedDesc_sorted ih x

theorem get_all_perm (db : DB) : (Task.get_all db).Perm db.tasks := by
  simp only [Task.get_all]
  induction db.tasks with
  | nil => exact List.Perm.refl _
  | cons x xs ih =>
    simp only [List.foldr_cons]
    exact (insertByCreatedDesc_perm x _).trans (ih.cons x)

theorem get_all_filter_stable (db : DB) (c : Nat) :
    (Task.get_all db).filter (fun s => s.created_at == c) =
      db.tasks.filter (fun s => s.created_at == c) := by
  simp only [Task.get_all]
  induction db.tasks with
  | nil => rfl
  | cons x xs ih =>
    simp only [List.foldr_cons]
    rw [insertByCreatedDesc_filter, List.filter_cons, ih]
    by_cases hx : x.created_at = c
    · simp [hx]
    · simp [hx]

/-- C8: `Task.get_all` returns all tasks newest-first: on three tasks
stored in order `T1, T2, T3` with strictly increasing timestamps it returns
`[T3, T2, T1]`; in general it is a permutation of the store sorted by
`created_at` descending, and tasks with equal timestamps keep their
insertion order (the filter at any fixed timestamp is unchanged). -/
theorem get_all_newest_first (us : List User) (t1 t2 t3 : Task)
    (h12 : t1.created_at < t2.created_at) (h23 : t2.created_at < t3.created_at) :
    Task.get_all ⟨us, [t1, t2, t3]⟩ = [t3, t2, t1] ∧
    (∀ db : DB, (Task.get_all db).Perm db.tasks) ∧
    (∀ db : DB, (Task.get_all db).Pairwise (fun a b => b.created_at ≤ a.created_at)) ∧
    (∀ (db : DB) (c : Nat),
      (Task.get_all db).filter (fun s => s.created_at == c) =
        db.tasks.filter (fun s => s.created_at == c)) := by
  refine ⟨?_, get_all_perm, get_all_sorted_desc, get_all_filter_stable⟩
  have h13 : t1.created_at < t3.created_at := lt_trans h12 h23
  simp [Task.get_all, insertByCreatedDesc,
    Nat.not_le.mpr h23, Nat.not_le.mpr h12, Nat.not_le.mpr h13]

def taskT1 : Task := { taskTitleA with title := "t1", slug := "t1", created_at := 1 }

def taskT2 : Task := { taskTitleA with title := "t2", slug := "t2", created_at := 2 }

def taskT3 : Task := { taskTitleA with title := "t3", slug := "t3", created_at := 3 }

theorem get_all_newest_first_witness :
    Task.get_all ⟨[], [taskT1, taskT2, taskT3]⟩ = [taskT3, taskT2, taskT1] ∧
    (∀ db : DB, (Task.get_all db).Perm db.tasks) ∧
    (∀ db : DB, (Task.get_all db).Pairwise (fun a b => b.created_at ≤ a.created_at)) ∧
    (∀ (db : DB) (c : Nat),
      (Task.get_all db).filter (fun s => s.created_at == c) =
        db.tasks.filter (fun s => s.created_at == c)) :=
  get_all_newest_first [] taskT1 taskT2 taskT3 (by decide) (by decide)

end TodoApp
